import Mathlib

/-!
Shallow embedding of `paper_trading_bot.py` (CryptoJ 2.0):
a paper-trading bot with a rolling-window signal engine (`TradeEngine`),
a portfolio simulator (`PaperTradeSimulator`) and a dashboard run loop
(`trade_dashboard`).  Prices and monetary amounts are modelled as exact
rationals; Python exceptions are modelled with `Except PyErr`.
-/

deriving instance DecidableEq for Except

namespace PaperBot

/-- Trading signal, the three strings returned by `TradeEngine.generate_signal`. -/
inductive Signal
  | BUY
  | SELL
  | HOLD
deriving DecidableEq

/-- Python exceptions that the modelled code can raise. -/
inductive PyErr
  | nameError
  | zeroDivisionError
  | indexError
  | typeError
  | unboundLocalError
deriving DecidableEq

/-- State of `TradeEngine`: the rolling price list and the optional last buy price. -/
structure EngineState where
  prices : List ℚ
  last_buy_price : Option ℚ
deriving DecidableEq

/-- `TradeEngine.__init__`: empty window, no last buy price. -/
def init_engine : EngineState := ⟨[], none⟩

/-- `TradeEngine.update_price`: append the price, then `pop(0)` once the list
exceeds 50 entries. -/
def update_price (s : EngineState) (price : ℚ) : EngineState :=
  let appended := s.prices ++ [price]
  if appended.length > 50 then { s with prices := appended.drop 1 }
  else { s with prices := appended }

/-- `self.prices[-1]`, the most recently observed price (default 0 is never
read on the paths where the source accesses it, which require 16+ samples). -/
def latest (s : EngineState) : ℚ := s.prices.getLastD 0

/-- `short_ema` local of `generate_signal`: mean of the last 8 samples. -/
def short_ema (s : EngineState) : ℚ := (s.prices.drop (s.prices.length - 8)).sum / 8

/-- `long_ema` local of `generate_signal`: mean of the last 16 samples. -/
def long_ema (s : EngineState) : ℚ := (s.prices.drop (s.prices.length - 16)).sum / 16

/-- The re-buy guard `self.last_buy_price is None or self.prices[-1] > self.last_buy_price * 1.001`. -/
def rebuy_ok (s : EngineState) : Bool :=
  match s.last_buy_price with
  | none => true
  | some lbp => decide (lbp * (1001/1000) < latest s)

/-- `TradeEngine.generate_signal`: HOLD below 16 samples, otherwise the
crossover logic; emitting BUY stores the latest price in `last_buy_price`. -/
def generate_signal (s : EngineState) : Signal × EngineState :=
  if s.prices.length < 16 then (.HOLD, s)
  else if long_ema s < short_ema s ∧ rebuy_ok s then
    (.BUY, { s with last_buy_price := some (latest s) })
  else if short_ema s < long_ema s then (.SELL, s)
  else (.HOLD, s)

/-- Entries of `self.trade_history`: `("BUY", price, holdings, balance)` or
`("SELL", price, proceeds, balance, profit)`. -/
inductive Trade
  | buy (price holdings balance : ℚ)
  | sell (price proceeds balance profit : ℚ)
deriving DecidableEq

/-- Index `[1]` of a trade tuple: the trade's price. -/
def Trade.price : Trade → ℚ
  | .buy p _ _ => p
  | .sell p _ _ _ => p

/-- Whether a record is a SELL record. -/
def Trade.isSell : Trade → Bool
  | .sell _ _ _ _ => true
  | .buy _ _ _ => false

/-- Whether a record is a BUY record. -/
def Trade.isBuy : Trade → Bool
  | .sell _ _ _ _ => false
  | .buy _ _ _ => true

/-- State of `PaperTradeSimulator`. -/
structure SimState where
  balance : ℚ
  holdings : ℚ
  trade_history : List Trade
  wins : ℕ
  losses : ℕ
deriving DecidableEq

/-- `PaperTradeSimulator.__init__` with a given initial balance (default 230). -/
def init_sim (initial_balance : ℚ) : SimState :=
  ⟨initial_balance, 0, [], 0, 0⟩

/-- Result of `execute_trade`: the returned status string, abstracted. -/
inductive Outcome
  | executed (s : Signal) (price : ℚ)
  | noOp
deriving DecidableEq

/-- `PaperTradeSimulator.execute_trade`.  Faithful to the source:
* BUY with `balance > 0`: `holdings = allocation / price` (an assignment, not
  `+=`), `balance -= allocation`, append a BUY record; `price = 0` raises
  `ZeroDivisionError`.
* SELL with `holdings > 0`: reads `trade_history[-1][1]` (`IndexError` on an
  empty ledger), computes `profit_percent` (`ZeroDivisionError` when the last
  recorded price is 0); the gate `profit_percent > 1 or short_ema < long_ema * 0.999`
  short-circuits when `profit_percent > 1`, and otherwise raises `NameError`
  because `short_ema` and `long_ema` are locals of
  `TradeEngine.generate_signal`, undefined in this scope.
* anything else: no mutation, returns the no-trade string. -/
def execute_trade (st : SimState) (signal : Signal) (price : ℚ) :
    Except PyErr (SimState × Outcome) :=
  if signal = .BUY ∧ 0 < st.balance then
    if price = 0 then .error .zeroDivisionError
    else
      let allocation := st.balance * (3/4)
      let new_holdings := allocation / price
      let new_balance := st.balance - allocation
      .ok ({ st with
              holdings := new_holdings
              balance := new_balance
              trade_history := st.trade_history ++ [.buy price new_holdings new_balance] },
            .executed .BUY price)
  else if signal = .SELL ∧ 0 < st.holdings then
    match st.trade_history.getLast? with
    | none => .error .indexError
    | some last =>
      if last.price = 0 then .error .zeroDivisionError
      else
        let proceeds := st.holdings * price
        let profit := proceeds - last.price * st.holdings
        let profit_percent := (price - last.price) / last.price * 100
        if 1 < profit_percent then
          let new_balance := st.balance + proceeds
          .ok ({ st with
                  balance := new_balance
                  holdings := 0
                  trade_history :=
                    st.trade_history ++ [.sell price proceeds new_balance profit]
                  wins := if 0 < profit then st.wins + 1 else st.wins
                  losses := if 0 < profit then st.losses else st.losses + 1 },
                .executed .SELL price)
        else .error .nameError
  else .ok (st, .noOp)

/-- One iteration of the `trade_dashboard` loop body.  `feed` is the value of
`market.get_price()` (`none` models a fetch failure, which `get_price` catches
and converts to `None`).  `prev` is the `trade_message` local carried over from
earlier iterations (`none` when it was never assigned).  The Python guard
`if price:` is falsy for both `None` and `0.0`; after the guarded block, the
UI unconditionally formats `price` with `:.2f`, which raises `TypeError` when
`price` is `None`, and reads `trade_message`, which raises
`UnboundLocalError` when it was never assigned. -/
def dashboard_tick (feed : Option ℚ) (eng : EngineState) (sim : SimState)
    (prev : Option Outcome) :
    Except PyErr (EngineState × SimState × Outcome) :=
  match feed with
  | none => .error .typeError
  | some p =>
    if p = 0 then
      match prev with
      | none => .error .unboundLocalError
      | some m => .ok (eng, sim, m)
    else
      let eng1 := update_price eng p
      let r := generate_signal eng1
      match execute_trade sim r.1 p with
      | .error e => .error e
      | .ok (sim1, out) => .ok (r.2, sim1, out)

/-- Simulator states reachable from the initial state (positive balance, zero
holdings, empty ledger) by successful `execute_trade` calls. -/
inductive Reachable : SimState → Prop
  | init (b : ℚ) (hb : 0 < b) : Reachable (init_sim b)
  | step (st st' : SimState) (signal : Signal) (price : ℚ) (out : Outcome)
      (h : Reachable st)
      (hex : execute_trade st signal price = .ok (st', out)) : Reachable st'

/-- Operations on the signal engine, for temporal claims: a price observation
or a `generate_signal` call. -/
inductive EngOp
  | update (p : ℚ)
  | signal
deriving DecidableEq

/-- One engine operation applied to an (engine state, emitted signals) pair. -/
def eng_step : EngineState × List Signal → EngOp → EngineState × List Signal
  | (s, sigs), .update p => (update_price s p, sigs)
  | (s, sigs), .signal =>
    let r := generate_signal s
    (r.2, sigs ++ [r.1])

/-- Run a list of engine operations from a state, collecting emitted signals. -/
def eng_run (s : EngineState) (ops : List EngOp) : EngineState × List Signal :=
  ops.foldl eng_step (s, [])

/-!
Helper lemmas about the embedded operations.
-/

/-- The price list produced by one `update_price` call, as an explicit
conditional. -/
theorem update_price_prices (s : EngineState) (p : ℚ) :
    (update_price s p).prices =
      if (s.prices ++ [p]).length > 50 then (s.prices ++ [p]).drop 1 else s.prices ++ [p] := by
  simp only [update_price]
  split <;> rfl

/-- `update_price` never touches `last_buy_price`. -/
theorem update_price_lbp (s : EngineState) (p : ℚ) :
    (update_price s p).last_buy_price = s.last_buy_price := by
  simp only [update_price]
  split <;> rfl

/-- After `update_price`, the most recent sample is the one just observed. -/
theorem latest_update (s : EngineState) (p : ℚ) : latest (update_price s p) = p := by
  simp only [latest, update_price]
  split
  · rename_i h
    cases hs : s.prices with
    | nil => simp [hs] at h
    | cons q t => simp [hs]
  · simp

/-- The rolling window after observing `vs` from a fresh engine is the suffix
of `vs` holding its last 50 elements. -/
theorem window_foldl (vs : List ℚ) :
    (vs.foldl update_price init_engine).prices = vs.drop (vs.length - 50) := by
  induction vs using List.reverseRecOn with
  | nil => rfl
  | append_singleton ws p ih =>
    rw [List.foldl_append, List.foldl_cons, List.foldl_nil, update_price_prices, ih]
    have hlen : (ws.drop (ws.length - 50)).length = ws.length - (ws.length - 50) := by simp
    by_cases hc : ws.length < 50
    · rw [if_neg (by simp [hlen]; omega)]
      have h0 : ws.length - 50 = 0 := by omega
      have h0' : (ws ++ [p]).length - 50 = 0 := by simp; omega
      rw [h0, h0', List.drop_zero, List.drop_zero]
    · rw [if_pos (by simp [hlen]; omega)]
      rw [List.drop_append_of_le_length (by simp; omega), List.drop_drop]
      rw [show (ws ++ [p]).drop ((ws ++ [p]).length - 50)
            = ws.drop ((ws ++ [p]).length - 50) ++ [p] from
          List.drop_append_of_le_length (by simp)]
      have h1 : (ws ++ [p]).length - 50 = ws.length - 50 + 1 := by simp; omega
      rw [h1]

/-- A signal other than BUY is HOLD or SELL. -/
theorem not_buy_cases (x : Signal) (h : x ≠ .BUY) : x = .HOLD ∨ x = .SELL := by
  cases x <;> simp_all

/-- When `last_buy_price = some P` and the latest sample does not exceed
`P * 1.001`, `generate_signal` does not emit BUY and leaves the state alone. -/
theorem gen_no_buy (s : EngineState) (P : ℚ) (h1 : s.last_buy_price = some P)
    (h2 : latest s ≤ P * (1001/1000)) :
    (generate_signal s).1 ≠ .BUY ∧ (generate_signal s).2 = s := by
  have hro : rebuy_ok s = false := by
    simp [rebuy_ok, h1, not_lt.2 h2]
  simp only [generate_signal, hro, Bool.false_eq_true, and_false, if_false]
  constructor
  · split
    · simp
    · split <;> simp
  · split
    · rfl
    · split <;> rfl

/-- Invariant along any engine trace whose observed prices stay at or below
`P * 1.001`: `last_buy_price` stays `some P` and every emitted signal is in
the accumulator or is HOLD or SELL. -/
theorem run_inv (P : ℚ) (ops : List EngOp) :
    ∀ (s : EngineState) (acc : List Signal),
    s.last_buy_price = some P →
    latest s ≤ P * (1001/1000) →
    (∀ p, EngOp.update p ∈ ops → p ≤ P * (1001/1000)) →
    (ops.foldl eng_step (s, acc)).1.last_buy_price = some P ∧
    (∀ x ∈ (ops.foldl eng_step (s, acc)).2, x ∈ acc ∨ x = .HOLD ∨ x = .SELL) := by
  induction ops with
  | nil => exact fun s acc h1 _ _ => ⟨h1, fun x hx => Or.inl hx⟩
  | cons op rest ih =>
    intro s acc h1 h2 h3
    cases op with
    | update p =>
      have hp : p ≤ P * (1001/1000) := h3 p (List.mem_cons_self _ _)
      have hres := ih (update_price s p) acc (by rw [update_price_lbp]; exact h1)
        (by rw [latest_update]; exact hp)
        (fun q hq => h3 q (List.mem_cons_of_mem _ hq))
      simpa [List.foldl_cons, eng_step] using hres
    | signal =>
      obtain ⟨hnb, heq⟩ := gen_no_buy s P h1 h2
      have hstep : eng_step (s, acc) EngOp.signal = (s, acc ++ [(generate_signal s).1]) := by
        simp [eng_step, heq]
      rw [List.foldl_cons, hstep]
      have hres := ih s (acc ++ [(generate_signal s).1]) h1 h2
        (fun q hq => h3 q (List.mem_cons_of_mem _ hq))
      refine ⟨hres.1, fun x hx => ?_⟩
      rcases hres.2 x hx with hmem | h | h
      · rcases List.mem_append.1 hmem with hacc | hsingle
        · exact Or.inl hacc
        · have hx' : x = (generate_signal s).1 := by simpa using hsingle
          subst hx'
          exact Or.inr (not_buy_cases _ hnb)
      · exact Or.inr (Or.inl h)
      · exact Or.inr (Or.inr h)

/-- Emitting BUY records the latest observed price in `last_buy_price`. -/
theorem gen_buy_sets_lbp (t : EngineState) (h : (generate_signal t).1 = .BUY) :
    (generate_signal t).2.last_buy_price = some (latest t) := by
  unfold generate_signal at h ⊢
  split at h <;> rename_i h1
  · simp at h
  · split at h <;> rename_i h2
    · rw [if_neg h1, if_pos h2]
    · split at h <;> simp_all

/-- Frame property of `generate_signal`: the price window is never mutated,
and the engine state changes (in `last_buy_price` only) exactly on BUY. -/
theorem gen_frame (s : EngineState) :
    (generate_signal s).2.prices = s.prices ∧
    ((generate_signal s).1 ≠ .BUY → (generate_signal s).2 = s) ∧
    ((generate_signal s).1 = .BUY →
      (generate_signal s).2 = { s with last_buy_price := some (latest s) }) := by
  unfold generate_signal
  split
  · exact ⟨rfl, fun _ => rfl, fun h => by simp at h⟩
  · split
    · exact ⟨rfl, fun h => absurd rfl h, fun _ => rfl⟩
    · split
      · exact ⟨rfl, fun _ => rfl, fun h => by simp at h⟩
      · exact ⟨rfl, fun _ => rfl, fun h => by simp at h⟩

/-- A successful `execute_trade` step preserves the invariant that nonzero
holdings imply a BUY record at the end of the ledger. -/
theorem exec_ok_last_buy {st st' : SimState} {signal : Signal} {price : ℚ} {out : Outcome}
    (hex : execute_trade st signal price = .ok (st', out))
    (inv : st.holdings ≠ 0 → ∃ p h b, st.trade_history.getLast? = some (.buy p h b)) :
    st'.holdings ≠ 0 → ∃ p h b, st'.trade_history.getLast? = some (.buy p h b) := by
  unfold execute_trade at hex
  split at hex
  case isTrue =>
    split at hex
    case isTrue => simp at hex
    case isFalse =>
      simp only [Except.ok.injEq, Prod.mk.injEq] at hex
      obtain ⟨hst, -⟩ := hex
      subst hst
      intro _
      exact ⟨_, _, _, by rw [List.getLast?_concat]⟩
  case isFalse =>
    split at hex
    case isTrue =>
      split at hex
      case h_1 => simp at hex
      case h_2 =>
        split at hex
        case isTrue => simp at hex
        case isFalse =>
          dsimp only at hex
          split at hex
          case isTrue =>
            simp only [Except.ok.injEq, Prod.mk.injEq] at hex
            obtain ⟨hst, -⟩ := hex
            subst hst
            intro hcon
            simp at hcon
          case isFalse => simp at hex
    case isFalse =>
      simp only [Except.ok.injEq, Prod.mk.injEq] at hex
      obtain ⟨hst, -⟩ := hex
      subst hst
      exact inv

/-- A successful `execute_trade` step preserves the equation
`wins + losses = number of SELL records`. -/
theorem exec_ok_counts {st st' : SimState} {signal : Signal} {price : ℚ} {out : Outcome}
    (hex : execute_trade st signal price = .ok (st', out))
    (inv : st.wins + st.losses = st.trade_history.countP (fun t => t.isSell)) :
    st'.wins + st'.losses = st'.trade_history.countP (fun t => t.isSell) := by
  unfold execute_trade at hex
  split at hex
  case isTrue =>
    split at hex
    case isTrue => simp at hex
    case isFalse =>
      simp only [Except.ok.injEq, Prod.mk.injEq] at hex
      obtain ⟨hst, -⟩ := hex
      subst hst
      simpa [List.countP_append, Trade.isSell] using inv
  case isFalse =>
    split at hex
    case isTrue =>
      split at hex
      case h_1 => simp at hex
      case h_2 =>
        split at hex
        case isTrue => simp at hex
        case isFalse =>
          dsimp only at hex
          split at hex
          case isTrue =>
            simp only [Except.ok.injEq, Prod.mk.injEq] at hex
            obtain ⟨hst, -⟩ := hex
            subst hst
            have h1 : ∀ (a b c d : ℚ),
                List.countP (fun t => t.isSell) [Trade.sell a b c d] = 1 := fun _ _ _ _ => rfl
            rw [List.countP_append, h1]
            split <;> dsimp only <;> omega
          case isFalse => simp at hex
    case isFalse =>
      simp only [Except.ok.injEq, Prod.mk.injEq] at hex
      obtain ⟨hst, -⟩ := hex
      subst hst
      exact inv

/-- Every ledger record is a BUY record or a SELL record, so the two counts
add up to the ledger length. -/
theorem count_buy_sell (l : List Trade) :
    l.countP (fun t => t.isBuy) + l.countP (fun t => t.isSell) = l.length := by
  induction l with
  | nil => simp
  | cons t rest ih =>
    rw [List.countP_cons, List.countP_cons, List.length_cons]
    cases t with
    | buy p h b =>
      simp only [show Trade.isBuy (.buy p h b) = true from rfl,
                 show Trade.isSell (.buy p h b) = false from rfl]
      simp
      omega
    | sell p pr b pf =>
      simp only [show Trade.isBuy (.sell p pr b pf) = false from rfl,
                 show Trade.isSell (.sell p pr b pf) = true from rfl]
      simp
      omega

/-!
Concrete states used by the witness theorems.
-/

/-- A simulator state holding one unit bought at price 100 with 25 left in
balance: the state after a BUY at 100 from an initial balance of 100. -/
def sim_after_buy : SimState := ⟨25, 1, [.buy 100 1 25], 0, 0⟩

/-- The state after `execute_trade (init_sim 400) BUY 100`. -/
def sim_post_buy400 : SimState := ⟨100, 3, [.buy 100 3 100], 0, 0⟩

/-- An engine state with 16 samples (eight at 90, then eight at 100) and a
recorded last buy price of 100: the short average (100) exceeds the long
average (95), but the latest price 100 does not exceed 100 * 1.001. -/
def eng_crossed : EngineState :=
  ⟨[90, 90, 90, 90, 90, 90, 90, 90, 100, 100, 100, 100, 100, 100, 100, 100], some 100⟩

/-- An engine state with 16 strictly rising samples and no last buy price:
`generate_signal` emits BUY on it. -/
def eng_rising : EngineState :=
  ⟨[1, 2, 3, 4, 5, 6, 7, 8, 9, 10, 11, 12, 13, 14, 15, 16], none⟩

/-- Fifty-one pairwise distinct rational prices 0, 1, ..., 50. -/
def prices51 : List ℚ := (List.range 51).map (fun n => (n : ℚ))

/-!
The claims.
-/

/-- C1.  The claim says that on a SELL with `holdings > 0`, `profitPercent ≤ 1`
and no sharp drop, `execute_trade` mutates nothing and returns a no-trade
outcome without raising.  The code instead raises `NameError`: the gate reads
`short_ema`/`long_ema`, which are locals of `TradeEngine.generate_signal` and
are undefined inside `execute_trade`; the `or` only short-circuits when
`profit_percent > 1`.  Concretely, selling at 100 the unit bought at 100
(profitPercent = 0) raises instead of returning the no-trade outcome. -/
theorem claim_c1_gate_fail_raises :
    execute_trade sim_after_buy .SELL 100 = .error .nameError := by
  simp only [sim_after_buy, execute_trade, List.getLast?, Trade.price, reduceCtorEq]
  norm_num

/-- C2, counterexample.  The claim says a BUY adds `allocation / price` to the
pre-existing holdings.  The code assigns `holdings = allocation / price`,
discarding them: from balance 100 and holdings 1, a BUY at 75 leaves holdings
1 (= 75/75), not 1 + 75/75 = 2. -/
theorem claim_c2_counterexample :
    execute_trade ⟨100, 1, [], 0, 0⟩ .BUY 75
      = .ok (⟨25, 1, [.buy 75 1 25], 0, 0⟩, .executed .BUY 75) ∧
    (1 : ℚ) ≠ 1 + 100 * (3/4) / 75 := by
  constructor
  · simp only [execute_trade, reduceCtorEq]
    norm_num
  · norm_num

/-- C2, amended.  For every state with `balance > 0` and nonzero price, BUY
allocates 75% of the balance, **sets** holdings to `allocation / price`
(overwriting any pre-existing holdings), subtracts the allocation from the
balance, and appends a BUY record. -/
theorem claim_c2_buy_allocates (st : SimState) (price : ℚ)
    (hb : 0 < st.balance) (hp : price ≠ 0) :
    execute_trade st .BUY price =
      .ok ({ st with
              holdings := st.balance * (3/4) / price
              balance := st.balance - st.balance * (3/4)
              trade_history := st.trade_history ++
                [.buy price (st.balance * (3/4) / price) (st.balance - st.balance * (3/4))] },
            .executed .BUY price) := by
  simp [execute_trade, hb, hp]

/-- C2, witness: the amended theorem applied at balance 100, holdings 1,
price 75. -/
theorem claim_c2_buy_allocates_witness :
    ((0 : ℚ) < (SimState.mk 100 1 [] 0 0).balance ∧ (75 : ℚ) ≠ 0) ∧
    execute_trade ⟨100, 1, [], 0, 0⟩ .BUY 75 =
      .ok ({ SimState.mk 100 1 [] 0 0 with
              holdings := (SimState.mk 100 1 [] 0 0).balance * (3/4) / 75
              balance := (SimState.mk 100 1 [] 0 0).balance -
                (SimState.mk 100 1 [] 0 0).balance * (3/4)
              trade_history := (SimState.mk 100 1 [] 0 0).trade_history ++
                [.buy 75 ((SimState.mk 100 1 [] 0 0).balance * (3/4) / 75)
                  ((SimState.mk 100 1 [] 0 0).balance -
                    (SimState.mk 100 1 [] 0 0).balance * (3/4))] },
            .executed .BUY 75) :=
  ⟨⟨by norm_num, by norm_num⟩,
    claim_c2_buy_allocates ⟨100, 1, [], 0, 0⟩ 75 (by norm_num) (by norm_num)⟩

/-- C3.  The claim says a failed price fetch skips the tick with no mutation,
surfaces a no-price status, and the loop continues.  In the code, `get_price`
does catch the fetch error and returns `None`, and the `if price:` guard skips
the trading block — but the UI then formats `price` with `:.2f`
unconditionally, which raises `TypeError` on `None`, terminating the loop (the
exception propagates out of `trade_dashboard` through `curses.wrapper`).  So
every tick whose fetch fails crashes the process instead of continuing. -/
theorem claim_c3_feed_failure_crashes (eng : EngineState) (sim : SimState)
    (prev : Option Outcome) :
    dashboard_tick none eng sim prev = .error .typeError := rfl

/-- C4.  For every state with `holdings > 0` whose ledger ends in a record with
nonzero price `buyPrice`, a SELL at a price with
`(price - buyPrice) / buyPrice * 100 > 1` adds `proceeds = holdings * price`
to the balance, zeroes the holdings, appends a SELL record carrying the
profit, and increments exactly one counter: `wins` when the profit is
positive, `losses` otherwise. -/
theorem claim_c4_sell_gate_pass (st : SimState) (price : ℚ) (last : Trade)
    (hh : 0 < st.holdings) (hl : st.trade_history.getLast? = some last)
    (hbp : last.price ≠ 0)
    (hpp : 1 < (price - last.price) / last.price * 100) :
    execute_trade st .SELL price =
      .ok ({ st with
              balance := st.balance + st.holdings * price
              holdings := 0
              trade_history := st.trade_history ++
                [.sell price (st.holdings * price) (st.balance + st.holdings * price)
                  (st.holdings * price - last.price * st.holdings)]
              wins := if 0 < st.holdings * price - last.price * st.holdings
                then st.wins + 1 else st.wins
              losses := if 0 < st.holdings * price - last.price * st.holdings
                then st.losses else st.losses + 1 },
            .executed .SELL price) := by
  simp [execute_trade, hh, hl, hbp, hpp]

/-- C4, witness: selling at 102 the unit bought at 100 (profitPercent = 2,
profit = 2 > 0). -/
theorem claim_c4_sell_gate_pass_witness :
    ((0 : ℚ) < sim_after_buy.holdings ∧
      sim_after_buy.trade_history.getLast? = some (.buy 100 1 25) ∧
      (Trade.buy 100 1 25).price ≠ 0 ∧
      1 < ((102 : ℚ) - (Trade.buy 100 1 25).price) / (Trade.buy 100 1 25).price * 100) ∧
    execute_trade sim_after_buy .SELL 102 =
      .ok ({ sim_after_buy with
              balance := sim_after_buy.balance + sim_after_buy.holdings * 102
              holdings := 0
              trade_history := sim_after_buy.trade_history ++
                [.sell 102 (sim_after_buy.holdings * 102)
                  (sim_after_buy.balance + sim_after_buy.holdings * 102)
                  (sim_after_buy.holdings * 102 -
                    (Trade.buy 100 1 25).price * sim_after_buy.holdings)]
              wins := if 0 < sim_after_buy.holdings * 102 -
                  (Trade.buy 100 1 25).price * sim_after_buy.holdings
                then sim_after_buy.wins + 1 else sim_after_buy.wins
              losses := if 0 < sim_after_buy.holdings * 102 -
                  (Trade.buy 100 1 25).price * sim_after_buy.holdings
                then sim_after_buy.losses else sim_after_buy.losses + 1 },
            .executed .SELL 102) :=
  ⟨⟨by norm_num [sim_after_buy], by rfl, by norm_num [Trade.price],
      by norm_num [Trade.price]⟩,
    claim_c4_sell_gate_pass sim_after_buy 102 (.buy 100 1 25)
      (by norm_num [sim_after_buy]) (by rfl) (by norm_num [Trade.price])
      (by norm_num [Trade.price])⟩

/-- C5.  BUY re-entry suppression: from any engine state with
`last_buy_price = some P`, along any trace of observations and evaluations in
which every price involved stays at or below `P * 1.001`, no evaluation
returns BUY (each returns HOLD or SELL) and `last_buy_price` stays `P`; and
whenever an evaluation does return BUY, it sets `last_buy_price` to the
latest observed price. -/
theorem claim_c5_buy_reentry_suppression :
    (∀ (s : EngineState) (P : ℚ) (ops : List EngOp),
      s.last_buy_price = some P →
      latest s ≤ P * (1001/1000) →
      (∀ p, EngOp.update p ∈ ops → p ≤ P * (1001/1000)) →
      (∀ x ∈ (eng_run s ops).2, x = .HOLD ∨ x = .SELL) ∧
      (eng_run s ops).1.last_buy_price = some P) ∧
    (∀ t : EngineState, (generate_signal t).1 = .BUY →
      (generate_signal t).2.last_buy_price = some (latest t)) := by
  constructor
  · intro s P ops h1 h2 h3
    unfold eng_run
    obtain ⟨ha, hb⟩ := run_inv P ops s [] h1 h2 h3
    refine ⟨fun x hx => ?_, ha⟩
    rcases hb x hx with hmem | h | h
    · simp at hmem
    · exact Or.inl h
    · exact Or.inr h
  · exact gen_buy_sets_lbp

/-- C5, witness: on `eng_crossed` the short average exceeds the long average,
yet with `last_buy_price = 100` and latest price 100 ≤ 100 * 1.001 the single
evaluation yields no BUY and leaves `last_buy_price` at 100. -/
theorem claim_c5_buy_reentry_suppression_witness :
    (eng_crossed.last_buy_price = some 100 ∧
      latest eng_crossed ≤ 100 * (1001/1000) ∧
      (∀ p, EngOp.update p ∈ [EngOp.signal] → p ≤ 100 * (1001/1000))) ∧
    ((∀ x ∈ (eng_run eng_crossed [EngOp.signal]).2, x = .HOLD ∨ x = .SELL) ∧
      (eng_run eng_crossed [EngOp.signal]).1.last_buy_price = some 100) :=
  ⟨⟨rfl, by norm_num [latest, eng_crossed], fun p hp => by simp at hp⟩,
    claim_c5_buy_reentry_suppression.1 eng_crossed 100 [EngOp.signal]
      rfl (by norm_num [latest, eng_crossed]) (fun p hp => by simp at hp)⟩

/-- C6.  The rolling price window: after any sequence of observations from a
fresh engine its length is at most 50 (it is a natural number, so at least 0);
an observation arriving when the window holds 50 samples evicts exactly the
oldest one (FIFO); and after observing 51 pairwise distinct values the first
is gone and the second is at the head. -/
theorem claim_c6_window_bounded_fifo :
    (∀ vs : List ℚ, (vs.foldl update_price init_engine).prices.length ≤ 50) ∧
    (∀ (s : EngineState) (p : ℚ), s.prices.length = 50 →
      (update_price s p).prices = s.prices.drop 1 ++ [p]) ∧
    (∀ vs : List ℚ, vs.length = 51 → vs.Nodup →
      (vs.foldl update_price init_engine).prices.head? = vs[1]? ∧
      ∀ a, vs.head? = some a → a ∉ (vs.foldl update_price init_engine).prices) := by
  refine ⟨fun vs => ?_, fun s p h50 => ?_, fun vs h51 hnd => ?_⟩
  · rw [window_foldl, List.length_drop]
    omega
  · rw [update_price_prices, if_pos (by simp [h50])]
    exact List.drop_append_of_le_length (by simp [h50])
  · have hd : vs.length - 50 = 1 := by rw [h51]
    rw [window_foldl, hd]
    cases vs with
    | nil => simp at h51
    | cons a t =>
      refine ⟨by simp [List.head?_eq_getElem?], fun b hb => ?_⟩
      have hba : a = b := by simpa using hb
      subst hba
      simpa using (List.nodup_cons.1 hnd).1

/-- C6, witness: the bound instantiated at the 51 distinct prices 0..50, the
eviction equation at a full window of prices 0..49, and the FIFO consequence
for the 51 distinct prices. -/
theorem claim_c6_window_bounded_fifo_witness :
    ((prices51.foldl update_price init_engine).prices.length ≤ 50) ∧
    ((EngineState.mk ((List.range 50).map (fun n => (n : ℚ))) none).prices.length = 50 ∧
      (update_price ⟨(List.range 50).map (fun n => (n : ℚ)), none⟩ 77).prices =
        ((List.range 50).map (fun n => (n : ℚ))).drop 1 ++ [77]) ∧
    (prices51.length = 51 ∧ prices51.Nodup ∧
      ((prices51.foldl update_price init_engine).prices.head? = prices51[1]? ∧
        ∀ a, prices51.head? = some a →
          a ∉ (prices51.foldl update_price init_engine).prices)) :=
  ⟨claim_c6_window_bounded_fifo.1 prices51,
    ⟨by rfl, claim_c6_window_bounded_fifo.2.1 ⟨(List.range 50).map (fun n => (n : ℚ)), none⟩ 77
      (by rfl)⟩,
    ⟨by rfl,
      @List.Nodup.map ℕ ℚ (List.range 51) (fun n => (n : ℚ))
        (fun _ _ hab => Nat.cast_injective hab) (List.nodup_range 51),
      claim_c6_window_bounded_fifo.2.2 prices51 (by rfl)
        (@List.Nodup.map ℕ ℚ (List.range 51) (fun n => (n : ℚ))
          (fun _ _ hab => Nat.cast_injective hab) (List.nodup_range 51))⟩⟩

/-- C7.  A SELL while holdings are zero, a BUY while the balance is zero, and
a HOLD all leave the state untouched and return the no-trade outcome, raising
nothing. -/
theorem claim_c7_noop_cases (st : SimState) (signal : Signal) (price : ℚ)
    (h : (signal = .SELL ∧ st.holdings = 0) ∨ (signal = .BUY ∧ st.balance = 0) ∨
      signal = .HOLD) :
    execute_trade st signal price = .ok (st, .noOp) := by
  rcases h with ⟨hs, hh⟩ | ⟨hs, hb⟩ | hs
  · subst hs; simp [execute_trade, hh]
  · subst hs; simp [execute_trade, hb]
  · subst hs; simp [execute_trade]

/-- C7, witness: HOLD on the freshly initialised simulator is a no-op. -/
theorem claim_c7_noop_cases_witness :
    ((Signal.HOLD = Signal.SELL ∧ (init_sim 230).holdings = 0) ∨
      (Signal.HOLD = Signal.BUY ∧ (init_sim 230).balance = 0) ∨
      Signal.HOLD = Signal.HOLD) ∧
    execute_trade (init_sim 230) .HOLD 1 = .ok (init_sim 230, .noOp) :=
  ⟨Or.inr (Or.inr rfl), claim_c7_noop_cases (init_sim 230) .HOLD 1 (Or.inr (Or.inr rfl))⟩

/-- C8.  In every simulator state reachable from the initial state by
successful `execute_trade` calls, positive holdings imply that the ledger is
non-empty and ends in a BUY record, so the SELL branch can always read
`buyPrice` from the last entry. -/
theorem claim_c8_sell_branch_reads_buy (st : SimState) (h : Reachable st)
    (hh : 0 < st.holdings) :
    st.trade_history ≠ [] ∧
    ∃ p hq b, st.trade_history.getLast? = some (Trade.buy p hq b) := by
  have inv : st.holdings ≠ 0 → ∃ p hq b, st.trade_history.getLast? = some (.buy p hq b) := by
    clear hh
    induction h with
    | init b hb => intro hc; simp [init_sim] at hc
    | step st st' sig price out hr hex ih => exact exec_ok_last_buy hex ih
  obtain ⟨p, hq, b, hlast⟩ := inv (ne_of_gt hh)
  refine ⟨fun hnil => ?_, ⟨p, hq, b, hlast⟩⟩
  rw [hnil] at hlast
  simp at hlast

/-- C8, witness: the state after a BUY at price 100 from initial balance 400
is reachable, has positive holdings, and its ledger ends in that BUY. -/
theorem claim_c8_sell_branch_reads_buy_witness :
    (Reachable sim_post_buy400 ∧ 0 < sim_post_buy400.holdings) ∧
    (sim_post_buy400.trade_history ≠ [] ∧
      ∃ p hq b, sim_post_buy400.trade_history.getLast? = some (Trade.buy p hq b)) := by
  have hex : execute_trade (init_sim 400) .BUY 100 =
      .ok (sim_post_buy400, .executed .BUY 100) := by
    simp only [execute_trade, init_sim, sim_post_buy400, reduceCtorEq]
    norm_num
  have hr : Reachable sim_post_buy400 :=
    Reachable.step (init_sim 400) sim_post_buy400 .BUY 100 (.executed .BUY 100)
      (Reachable.init 400 (by norm_num)) hex
  exact ⟨⟨hr, by norm_num [sim_post_buy400]⟩,
    claim_c8_sell_branch_reads_buy sim_post_buy400 hr (by norm_num [sim_post_buy400])⟩

/-- C9.  In every reachable simulator state, `wins + losses` equals the number
of SELL records in the ledger, and hence the number of BUY records is the
ledger length minus `wins + losses`. -/
theorem claim_c9_wins_losses_count (st : SimState) (h : Reachable st) :
    st.wins + st.losses = st.trade_history.countP (fun t => t.isSell) ∧
    st.trade_history.countP (fun t => t.isBuy) =
      st.trade_history.length - (st.wins + st.losses) := by
  have h1 : st.wins + st.losses = st.trade_history.countP (fun t => t.isSell) := by
    induction h with
    | init b hb => simp [init_sim]
    | step st st' sig price out hr hex ih => exact exec_ok_counts hex ih
  have h2 := count_buy_sell st.trade_history
  exact ⟨h1, by omega⟩

/-- C9, witness: the invariant holds in the reachable state after one BUY
(zero SELL records, one BUY record). -/
theorem claim_c9_wins_losses_count_witness :
    Reachable sim_post_buy400 ∧
    (sim_post_buy400.wins + sim_post_buy400.losses =
        sim_post_buy400.trade_history.countP (fun t => t.isSell) ∧
      sim_post_buy400.trade_history.countP (fun t => t.isBuy) =
        sim_post_buy400.trade_history.length -
          (sim_post_buy400.wins + sim_post_buy400.losses)) := by
  have hex : execute_trade (init_sim 400) .BUY 100 =
      .ok (sim_post_buy400, .executed .BUY 100) := by
    simp only [execute_trade, init_sim, sim_post_buy400, reduceCtorEq]
    norm_num
  have hr : Reachable sim_post_buy400 :=
    Reachable.step (init_sim 400) sim_post_buy400 .BUY 100 (.executed .BUY 100)
      (Reachable.init 400 (by norm_num)) hex
  exact ⟨hr, claim_c9_wins_losses_count sim_post_buy400 hr⟩

/-- C10.  `generate_signal` never modifies the price window; a call that does
not return BUY leaves the whole engine state unchanged (including the case of
fewer than 16 samples), and a call that returns BUY changes exactly
`last_buy_price`, to the latest observed price. -/
theorem claim_c10_generate_signal_frame (s : EngineState) :
    (generate_signal s).2.prices = s.prices ∧
    ((generate_signal s).1 ≠ .BUY → (generate_signal s).2 = s) ∧
    ((generate_signal s).1 = .BUY →
      (generate_signal s).2 = { s with last_buy_price := some (latest s) }) :=
  gen_frame s

/-- C10, witness: a fresh engine returns HOLD and is unchanged; the rising
16-sample engine returns BUY and changes only `last_buy_price`. -/
theorem claim_c10_generate_signal_frame_witness :
    ((generate_signal init_engine).1 ≠ .BUY ∧
      (generate_signal init_engine).2 = init_engine) ∧
    ((generate_signal eng_rising).1 = .BUY ∧
      (generate_signal eng_rising).2 =
        { eng_rising with last_buy_price := some (latest eng_rising) }) := by
  have hg : generate_signal eng_rising =
      (.BUY, { eng_rising with last_buy_price := some (latest eng_rising) }) := by
    simp only [generate_signal, short_ema, long_ema, rebuy_ok, latest, eng_rising]
    norm_num
  have hb : (generate_signal eng_rising).1 = .BUY := by rw [hg]
  exact ⟨⟨by decide, (claim_c10_generate_signal_frame init_engine).2.1 (by decide)⟩,
    ⟨hb, (claim_c10_generate_signal_frame eng_rising).2.2 hb⟩⟩

end PaperBot
